import Mathlib

/-!
Verification of the booklet page-ordering core of `make_booklet.py`.

The embedded functions mirror the source:
* `booklet_pages n start_page` — the pure sequencer: rounds `n` up to a
  multiple of 4, then runs the two-cursor while loop emitting one sheet
  (a 4-tuple of page numbers) per iteration.
* `booklet_pages_to_list` — the flattening comprehension.
Python's `%` on a positive divisor agrees with Lean's `Int.emod`, so the
rounding expression `n + (4 - n % 4) % 4` is transcribed literally.
The while loop is modelled by well-founded recursion on `right - left`
(`bookletLoop`); a fuel-indexed variant `bookletLoopFuel` models the
iterative execution step by step and is used to state termination and
iteration-count claims.
-/

/-- A sheet: `(outer_right, outer_left, inner_left, inner_right)`. -/
abbrev Sheet := Int × Int × Int × Int

/-- The rounding step of `booklet_pages`: `n = int(n + (4 - n % 4) % 4)`. -/
def roundUp4 (n : Int) : Int := n + (4 - n % 4) % 4

/-- The while loop of `booklet_pages`: while `left < right`, emit
`(right + offset, left + offset, left + 1 + offset, right - 1 + offset)`,
then `left += 2`, `right -= 2`. -/
def bookletLoop (left right offset : Int) : List Sheet :=
  if _h : left < right then
    (right + offset, left + offset, left + 1 + offset, right - 1 + offset) ::
      bookletLoop (left + 2) (right - 2) offset
  else []
termination_by (right - left).toNat
decreasing_by omega

/-- `booklet_pages(n, start_page)` from the source: round `n` up to the
nearest multiple of 4, set `left = 1`, `right = n`, `offset = start_page - 1`,
and run the loop. -/
def booklet_pages (n : Int) (start_page : Int := 1) : List Sheet :=
  bookletLoop 1 (roundUp4 n) (start_page - 1)

/-- `booklet_pages_to_list`: `[page for sheet in booklet_sheets for page in sheet]`. -/
def booklet_pages_to_list (booklet_sheets : List Sheet) : List Int :=
  booklet_sheets.flatMap (fun s => [s.1, s.2.1, s.2.2.1, s.2.2.2])

/-- Fuel-indexed execution of the while loop: one unit of fuel per
iteration; `none` when the guard still holds with no fuel left.  With
enough fuel it computes exactly `bookletLoop`. -/
def bookletLoopFuel : Nat → Int → Int → Int → Option (List Sheet)
  | 0, left, right, _ => if left < right then none else some []
  | fuel + 1, left, right, offset =>
    if left < right then
      (bookletLoopFuel fuel (left + 2) (right - 2) offset).map
        (fun rest =>
          (right + offset, left + offset, left + 1 + offset, right - 1 + offset) :: rest)
    else some []

/-- `booklet_pages` executed with a fuel budget on the loop. -/
def bookletPagesFuel (fuel : Nat) (n start_page : Int) : Option (List Sheet) :=
  bookletLoopFuel fuel 1 (roundUp4 n) (start_page - 1)

/-- The integer interval `[a, b]` as a list, in increasing order. -/
def intRange (a b : Int) : List Int :=
  (List.range (b + 1 - a).toNat).map (fun i : Nat => a + (i : Int))

/-- One loop iteration when the guard `left < right` holds. -/
theorem bookletLoop_of_lt (left right offset : Int) (h : left < right) :
    bookletLoop left right offset =
      (right + offset, left + offset, left + 1 + offset, right - 1 + offset) ::
        bookletLoop (left + 2) (right - 2) offset := by
  conv_lhs => rw [bookletLoop]
  exact dif_pos h

/-- Loop exit when the guard `left < right` fails. -/
theorem bookletLoop_of_ge (left right offset : Int) (h : ¬ left < right) :
    bookletLoop left right offset = [] := by
  rw [bookletLoop]
  exact dif_neg h

/-- Flattening the empty sheet list. -/
theorem flat_nil : booklet_pages_to_list [] = [] := rfl

/-- Flattening a cons: the head sheet contributes its four entries in order. -/
theorem flat_cons (s : Sheet) (l : List Sheet) :
    booklet_pages_to_list (s :: l) =
      [s.1, s.2.1, s.2.2.1, s.2.2.2] ++ booklet_pages_to_list l := rfl

/-- Occurrence count of any value in the flattened loop output: when the
span `right + 1 - left` is a multiple of 4, every integer in
`[left + offset, right + offset]` occurs exactly once and nothing else
occurs. -/
theorem count_flat_loop :
    ∀ (m : Nat) (left right offset v : Int), (right - left).toNat ≤ m →
      (right + 1 - left) % 4 = 0 →
      (booklet_pages_to_list (bookletLoop left right offset)).count v =
        if left + offset ≤ v ∧ v ≤ right + offset then 1 else 0 := by
  intro m
  induction m with
  | zero =>
    intro l r o v hm h4
    rw [bookletLoop_of_ge l r o (by omega), flat_nil, List.count_nil]
    split_ifs <;> omega
  | succ m ih =>
    intro l r o v hm h4
    by_cases hlr : l < r
    · rw [bookletLoop_of_lt l r o hlr, flat_cons, List.count_append,
        ih (l + 2) (r - 2) o v (by omega) (by omega)]
      simp only [List.count_cons, List.count_nil, beq_iff_eq]
      split_ifs <;> omega
    · rw [bookletLoop_of_ge l r o hlr, flat_nil, List.count_nil]
      split_ifs <;> omega

/-- Occurrence count in a shifted `List.range`. -/
theorem count_range_map :
    ∀ (m : Nat) (a v : Int),
      ((List.range m).map (fun i : Nat => a + (i : Int))).count v =
        if a ≤ v ∧ v < a + (m : Int) then 1 else 0 := by
  intro m
  induction m with
  | zero =>
    intro a v
    simp only [List.range_zero, List.map_nil, List.count_nil]
    split_ifs <;> omega
  | succ k ih =>
    intro a v
    rw [List.range_succ]
    simp only [List.map_append, List.map_cons, List.map_nil, List.count_append,
      List.count_cons, List.count_nil, beq_iff_eq, ih]
    split_ifs <;> omega

/-- Occurrence count in `intRange`. -/
theorem count_intRange (a b v : Int) :
    (intRange a b).count v = if a ≤ v ∧ v ≤ b then 1 else 0 := by
  unfold intRange
  rw [count_range_map]
  split_ifs <;> omega

/-- C1: for `n ≥ 0` and any `start_page`, the multiset of page numbers across
the tuples of `booklet_pages n start_page` is exactly the integer range
`[start_page, start_page + n4 - 1]`, each value once, where `n4` is `n`
rounded up to a multiple of 4. -/
theorem booklet_pages_page_multiset (n s : Int) (_hn : 0 ≤ n) :
    (↑(booklet_pages_to_list (booklet_pages n s)) : Multiset Int) =
      (↑(intRange s (s + roundUp4 n - 1)) : Multiset Int) := by
  rw [Multiset.coe_eq_coe, List.perm_iff_count]
  intro v
  rw [count_intRange]
  unfold booklet_pages
  rw [count_flat_loop (roundUp4 n - 1).toNat 1 (roundUp4 n) (s - 1) v (by omega)
    (by unfold roundUp4; omega)]
  split_ifs <;> omega

/-- Witness for C1 at `n = 12`, `start_page = 1`. -/
theorem booklet_pages_page_multiset_witness :
    0 ≤ (12 : Int) ∧
    (↑(booklet_pages_to_list (booklet_pages 12 1)) : Multiset Int) =
      (↑(intRange 1 (1 + roundUp4 12 - 1)) : Multiset Int) :=
  ⟨by decide, booklet_pages_page_multiset 12 1 (by decide)⟩

/-- Flattening yields four entries per sheet. -/
theorem flat_length (l : List Sheet) :
    (booklet_pages_to_list l).length = 4 * l.length := by
  induction l with
  | nil => rfl
  | cons s t ih =>
    rw [flat_cons]
    simp [ih]
    omega

/-- Number of loop iterations (= emitted sheets): a quarter of the span,
when the span is a nonnegative multiple of 4. -/
theorem bookletLoop_length :
    ∀ (m : Nat) (l r o : Int), (r - l).toNat ≤ m → (r + 1 - l) % 4 = 0 →
      0 ≤ r + 1 - l →
      ((bookletLoop l r o).length : Int) = (r + 1 - l) / 4 := by
  intro m
  induction m with
  | zero =>
    intro l r o hm h4 hpos
    rw [bookletLoop_of_ge l r o (by omega)]
    simp only [List.length_nil, Nat.cast_zero]
    omega
  | succ m ih =>
    intro l r o hm h4 hpos
    by_cases hlr : l < r
    · rw [bookletLoop_of_lt l r o hlr, List.length_cons, Nat.cast_add,
        ih (l + 2) (r - 2) o (by omega) (by omega) (by omega)]
      push_cast
      omega
    · rw [bookletLoop_of_ge l r o hlr]
      simp only [List.length_nil, Nat.cast_zero]
      omega

/-- C2: padding law — for `n ≥ 0` the flattened page order of
`booklet_pages n 1` has length `n + (4 - n % 4) % 4`. -/
theorem booklet_pages_flat_length (n : Int) (hn : 0 ≤ n) :
    ((booklet_pages_to_list (booklet_pages n 1)).length : Int) =
      n + (4 - n % 4) % 4 := by
  unfold booklet_pages
  rw [flat_length]
  push_cast
  rw [bookletLoop_length (roundUp4 n).toNat 1 (roundUp4 n) 0 (by omega)
    (by unfold roundUp4; omega) (by unfold roundUp4; omega)]
  unfold roundUp4
  omega

/-- Witness for C2 at `n = 10`. -/
theorem booklet_pages_flat_length_witness :
    0 ≤ (10 : Int) ∧
    ((booklet_pages_to_list (booklet_pages 10 1)).length : Int) =
      10 + (4 - (10 : Int) % 4) % 4 :=
  ⟨by decide, booklet_pages_flat_length 10 (by decide)⟩

/-- C3: `booklet_pages(12, 1)` is exactly `[(12,1,2,11),(10,3,4,9),(8,5,6,7)]`
and flattening it gives exactly `[12,1,2,11,10,3,4,9,8,5,6,7]`. -/
theorem booklet_pages_twelve :
    booklet_pages 12 1 = [(12, 1, 2, 11), (10, 3, 4, 9), (8, 5, 6, 7)] ∧
    booklet_pages_to_list (booklet_pages 12 1) =
      [12, 1, 2, 11, 10, 3, 4, 9, 8, 5, 6, 7] := by
  have h : booklet_pages 12 1 = [(12, 1, 2, 11), (10, 3, 4, 9), (8, 5, 6, 7)] := by
    norm_num [booklet_pages, roundUp4, bookletLoop_of_lt, bookletLoop_of_ge]
  refine ⟨h, ?_⟩
  rw [h]
  rfl

/-- C8: `booklet_pages(0, 1)` is empty and `booklet_pages(4, 1)` is the
single sheet `(4,1,2,3)`. -/
theorem booklet_pages_zero_four :
    booklet_pages 0 1 = [] ∧ booklet_pages 4 1 = [(4, 1, 2, 3)] := by
  constructor
  · norm_num [booklet_pages, roundUp4, bookletLoop_of_lt, bookletLoop_of_ge]
  · norm_num [booklet_pages, roundUp4, bookletLoop_of_lt, bookletLoop_of_ge]

/-- Running the fuel-indexed loop with fuel equal to the number of emitted
sheets succeeds and computes the loop's result. -/
theorem bookletLoopFuel_length_eq :
    ∀ (m : Nat) (l r o : Int), (r - l).toNat ≤ m →
      bookletLoopFuel (bookletLoop l r o).length l r o = some (bookletLoop l r o) := by
  intro m
  induction m with
  | zero =>
    intro l r o hm
    rw [bookletLoop_of_ge l r o (by omega)]
    simp only [List.length_nil, bookletLoopFuel]
    rw [if_neg (by omega)]
  | succ m ih =>
    intro l r o hm
    by_cases hlr : l < r
    · rw [bookletLoop_of_lt l r o hlr]
      simp only [List.length_cons, bookletLoopFuel]
      rw [if_pos hlr, ih (l + 2) (r - 2) o (by omega)]
      rfl
    · rw [bookletLoop_of_ge l r o hlr]
      simp only [List.length_nil, bookletLoopFuel]
      rw [if_neg hlr]

/-- With fewer fuel units than emitted sheets, the fuel-indexed loop runs
out of fuel: the while loop really needs that many iterations. -/
theorem bookletLoopFuel_none :
    ∀ (fuel : Nat) (l r o : Int), fuel < (bookletLoop l r o).length →
      bookletLoopFuel fuel l r o = none := by
  intro fuel
  induction fuel with
  | zero =>
    intro l r o h
    by_cases hlr : l < r
    · simp only [bookletLoopFuel]
      rw [if_pos hlr]
    · rw [bookletLoop_of_ge l r o hlr] at h
      simp at h
  | succ fuel ih =>
    intro l r o h
    by_cases hlr : l < r
    · rw [bookletLoop_of_lt l r o hlr, List.length_cons] at h
      simp only [bookletLoopFuel]
      rw [if_pos hlr, ih (l + 2) (r - 2) o (by omega)]
      rfl
    · rw [bookletLoop_of_ge l r o hlr] at h
      simp at h

/-- With fuel at least the loop span, the fuel-indexed loop succeeds and
computes `bookletLoop`. -/
theorem bookletLoopFuel_complete :
    ∀ (m : Nat) (l r o : Int), (r - l).toNat ≤ m →
      bookletLoopFuel m l r o = some (bookletLoop l r o) := by
  intro m
  induction m with
  | zero =>
    intro l r o hm
    rw [bookletLoop_of_ge l r o (by omega)]
    simp only [bookletLoopFuel]
    rw [if_neg (by omega)]
  | succ m ih =>
    intro l r o hm
    by_cases hlr : l < r
    · rw [bookletLoop_of_lt l r o hlr]
      simp only [bookletLoopFuel]
      rw [if_pos hlr, ih (l + 2) (r - 2) o (by omega)]
      rfl
    · rw [bookletLoop_of_ge l r o hlr]
      simp only [bookletLoopFuel]
      rw [if_neg hlr]

/-- C4: the while loop terminates after exactly `n4 / 4` iterations, where
`n4` is `n` rounded up to a multiple of 4: the returned sequence has
`n4 / 4` sheets, running the loop with exactly that much fuel succeeds,
and any smaller fuel budget is exhausted before the guard fails. -/
theorem booklet_pages_sheet_count (n s : Int) (hn : 0 ≤ n) :
    ((booklet_pages n s).length : Int) = roundUp4 n / 4 ∧
    bookletPagesFuel (booklet_pages n s).length n s = some (booklet_pages n s) ∧
    ∀ fuel : Nat, fuel < (booklet_pages n s).length →
      bookletPagesFuel fuel n s = none := by
  refine ⟨?_, ?_, ?_⟩
  · unfold booklet_pages
    rw [bookletLoop_length (roundUp4 n).toNat 1 (roundUp4 n) (s - 1) (by omega)
      (by unfold roundUp4; omega) (by unfold roundUp4; omega)]
    omega
  · exact bookletLoopFuel_length_eq (roundUp4 n - 1).toNat 1 (roundUp4 n) (s - 1) (by omega)
  · intro fuel h
    exact bookletLoopFuel_none fuel 1 (roundUp4 n) (s - 1) h

/-- Witness for C4 at `n = 12`, `start_page = 1`. -/
theorem booklet_pages_sheet_count_witness :
    0 ≤ (12 : Int) ∧ ((booklet_pages 12 1).length : Int) = roundUp4 12 / 4 :=
  ⟨by decide, (booklet_pages_sheet_count 12 1 (by decide)).1⟩

/-- Shifting the loop offset shifts every tuple component. -/
theorem bookletLoop_shift :
    ∀ (m : Nat) (l r o d : Int), (r - l).toNat ≤ m →
      bookletLoop l r (o + d) =
        (bookletLoop l r o).map
          (fun p => (p.1 + d, p.2.1 + d, p.2.2.1 + d, p.2.2.2 + d)) := by
  intro m
  induction m with
  | zero =>
    intro l r o d hm
    rw [bookletLoop_of_ge _ _ _ (by omega), bookletLoop_of_ge _ _ _ (by omega)]
    rfl
  | succ m ih =>
    intro l r o d hm
    by_cases hlr : l < r
    · rw [bookletLoop_of_lt _ _ _ hlr, bookletLoop_of_lt _ _ _ hlr, List.map_cons,
        ih (l + 2) (r - 2) o d (by omega)]
      simp only [List.cons.injEq, Prod.mk.injEq]
      exact ⟨⟨by ring, by ring, by ring, by ring⟩, trivial⟩
    · rw [bookletLoop_of_ge _ _ _ hlr, bookletLoop_of_ge _ _ _ hlr]
      rfl

/-- C5: changing the start page from `t` to `s` shifts every tuple element
of `booklet_pages` by `s - t`; in particular `booklet_pages 8 5` is
`booklet_pages 8 1` with every element incremented by 4. -/
theorem booklet_pages_start_shift :
    (∀ n s t : Int, 0 ≤ n →
      booklet_pages n s =
        (booklet_pages n t).map
          (fun p => (p.1 + (s - t), p.2.1 + (s - t), p.2.2.1 + (s - t),
            p.2.2.2 + (s - t)))) ∧
    booklet_pages 8 5 =
      (booklet_pages 8 1).map
        (fun p => (p.1 + 4, p.2.1 + 4, p.2.2.1 + 4, p.2.2.2 + 4)) := by
  have key : ∀ n s t : Int,
      booklet_pages n s =
        (booklet_pages n t).map
          (fun p => (p.1 + (s - t), p.2.1 + (s - t), p.2.2.1 + (s - t),
            p.2.2.2 + (s - t))) := by
    intro n s t
    unfold booklet_pages
    have h : s - 1 = (t - 1) + (s - t) := by ring
    rw [h, bookletLoop_shift (roundUp4 n - 1).toNat 1 (roundUp4 n) (t - 1) (s - t)
      (by omega)]
  refine ⟨fun n s t _ => key n s t, ?_⟩
  have h8 := key 8 5 1
  norm_num at h8
  exact h8

/-- Witness for C5 at `n = 8`, `s = 5`, `t = 1`. -/
theorem booklet_pages_start_shift_witness :
    0 ≤ (8 : Int) ∧
    booklet_pages 8 5 =
      (booklet_pages 8 1).map
        (fun p => (p.1 + ((5 : Int) - 1), p.2.1 + ((5 : Int) - 1),
          p.2.2.1 + ((5 : Int) - 1), p.2.2.2 + ((5 : Int) - 1))) :=
  ⟨by decide, booklet_pages_start_shift.1 8 5 1 (by decide)⟩

/-- Rounding up to a multiple of 4 is idempotent. -/
theorem roundUp4_roundUp4 (n : Int) : roundUp4 (roundUp4 n) = roundUp4 n := by
  unfold roundUp4
  omega

/-- C6: a page count that is not a multiple of 4 pads up: `booklet_pages n s`
equals `booklet_pages` of `n` rounded up to the next multiple of 4; in
particular `n = 10` behaves exactly as `n = 12` for every start page. -/
theorem booklet_pages_pads_up :
    (∀ n s : Int, n % 4 ≠ 0 → booklet_pages n s = booklet_pages (roundUp4 n) s) ∧
    ∀ s : Int, booklet_pages 10 s = booklet_pages 12 s := by
  have key : ∀ n s : Int, booklet_pages n s = booklet_pages (roundUp4 n) s := by
    intro n s
    unfold booklet_pages
    rw [roundUp4_roundUp4]
  refine ⟨fun n s _ => key n s, fun s => ?_⟩
  have h := key 10 s
  have h12 : roundUp4 10 = 12 := by decide
  rw [h12] at h
  exact h

/-- Witness for C6 at `n = 10`, `start_page = 7`. -/
theorem booklet_pages_pads_up_witness :
    (10 : Int) % 4 ≠ 0 ∧ booklet_pages 10 7 = booklet_pages (roundUp4 10) 7 :=
  ⟨by decide, booklet_pages_pads_up.1 10 7 (by decide)⟩

/-- C7: totality — for every `n ≥ 0` and every `start_page` of any sign the
iterative loop execution terminates (some fuel budget suffices) and returns
the sequence `booklet_pages n start_page`; no input is rejected. -/
theorem booklet_pages_total (n s : Int) (_hn : 0 ≤ n) :
    ∃ fuel : Nat, bookletPagesFuel fuel n s = some (booklet_pages n s) :=
  ⟨(roundUp4 n - 1).toNat,
    bookletLoopFuel_complete (roundUp4 n - 1).toNat 1 (roundUp4 n) (s - 1) (by omega)⟩

/-- Witness for C7 at `n = 6` and negative start page `-2`. -/
theorem booklet_pages_total_witness :
    0 ≤ (6 : Int) ∧
    ∃ fuel : Nat, bookletPagesFuel fuel 6 (-2) = some (booklet_pages 6 (-2)) :=
  ⟨by decide, booklet_pages_total 6 (-2) (by decide)⟩

/-- C9: for `n ≤ 0` (including the negative page counts the spec excludes),
the rounded count is still at most 0, the loop guard fails at once, and
`booklet_pages` returns the empty list. -/
theorem booklet_pages_nonpos (n s : Int) (_hn : n ≤ 0) :
    booklet_pages n s = [] := by
  unfold booklet_pages
  exact bookletLoop_of_ge _ _ _ (by unfold roundUp4; omega)

/-- Witness for C9 at `n = -3`, `start_page = 5`. -/
theorem booklet_pages_nonpos_witness :
    (-3 : Int) ≤ 0 ∧ booklet_pages (-3) 5 = [] :=
  ⟨by decide, booklet_pages_nonpos (-3) 5 (by decide)⟩

/-- Every sheet the loop emits has both its outer pair and its inner pair
summing to `left + right + 2 * offset`, the loop's conserved quantity. -/
theorem bookletLoop_sum :
    ∀ (m : Nat) (l r o : Int), (r - l).toNat ≤ m →
      ∀ p ∈ bookletLoop l r o,
        p.1 + p.2.1 = l + r + 2 * o ∧ p.2.2.1 + p.2.2.2 = l + r + 2 * o := by
  intro m
  induction m with
  | zero =>
    intro l r o hm p hp
    rw [bookletLoop_of_ge _ _ _ (by omega)] at hp
    simp at hp
  | succ m ih =>
    intro l r o hm p hp
    by_cases hlr : l < r
    · rw [bookletLoop_of_lt _ _ _ hlr] at hp
      rcases List.mem_cons.mp hp with h | h
      · subst h
        refine ⟨?_, ?_⟩ <;> dsimp only <;> ring
      · have hsum := ih (l + 2) (r - 2) o (by omega) p h
        exact ⟨by omega, by omega⟩
    · rw [bookletLoop_of_ge _ _ _ hlr] at hp
      simp at hp

/-- C10: every sheet `(outer_right, outer_left, inner_left, inner_right)`
of `booklet_pages n s` (for `n ≥ 0`) satisfies
`outer_right + outer_left = inner_left + inner_right = n4 + 1 + 2*(s - 1)`,
where `n4` is `n` rounded up to a multiple of 4: both sides of every
physical sheet carry page pairs with the same constant sum. -/
theorem booklet_pages_sheet_sums (n s : Int) (_hn : 0 ≤ n) :
    ∀ p ∈ booklet_pages n s,
      p.1 + p.2.1 = roundUp4 n + 1 + 2 * (s - 1) ∧
      p.2.2.1 + p.2.2.2 = roundUp4 n + 1 + 2 * (s - 1) := by
  intro p hp
  unfold booklet_pages at hp
  have h := bookletLoop_sum (roundUp4 n - 1).toNat 1 (roundUp4 n) (s - 1) (by omega) p hp
  exact ⟨by omega, by omega⟩

/-- Witness for C10 at `n = 4`, `start_page = 1`, sheet `(4,1,2,3)`. -/
theorem booklet_pages_sheet_sums_witness :
    0 ≤ (4 : Int) ∧
    ((4 : Int), (1 : Int), (2 : Int), (3 : Int)) ∈ booklet_pages 4 1 ∧
    ((4 : Int) + 1 = roundUp4 4 + 1 + 2 * (1 - 1) ∧
      (2 : Int) + 3 = roundUp4 4 + 1 + 2 * (1 - 1)) := by
  have h4 : booklet_pages 4 1 = [(4, 1, 2, 3)] := by
    norm_num [booklet_pages, roundUp4, bookletLoop_of_lt, bookletLoop_of_ge]
  have hmem : ((4 : Int), (1 : Int), (2 : Int), (3 : Int)) ∈ booklet_pages 4 1 := by
    rw [h4]
    exact List.mem_singleton.mpr rfl
  exact ⟨by decide, hmem, booklet_pages_sheet_sums 4 1 (by decide) (4, 1, 2, 3) hmem⟩
